import Mathlib

/-!
Shallow embedding of the object-tracking core of `src/recognition/object_tracking.py`
(class `TEObjectTracker` and class `SingleObjectInfo`), a Python 2 module
(`filter` returns a list, so store pruning is eager).

Modelling choices, each justified by the source:
* A contour is consumed only through three geometry-collaborator projections:
  its center of mass (`calc_center_of_mass`, integer coordinates, line 25),
  its minimal rotated rectangle (`cv2.minAreaRect`) and its area
  (`cv2.contourArea`, a float, modelled as a rational).  A `Det` value
  packages exactly these three projections, so storing `prev_det` is
  equivalent to storing `prev_contour` together with its cached
  `prev_min_rect` / `prev_cnt_area` (lines 42-44, 51-53): the synthetic
  update at line 185 re-derives the same three values from `prev_contour`.
* The rectangle type and the intersection test
  (`cv2.rotatedRectangleIntersection`, line 132) are opaque collaborator
  parameters `Rect` and `inter`; the core only branches on the Boolean result.
* Object ids: the source stores the string `"ID" + str(total_seen_objects)`
  (line 168); the embedding keeps the integer `total_seen_objects` itself,
  which determines the string (`str` on distinct naturals is injective).
* `math.sqrt` (line 34) is a strictly monotone map from squared distances to
  distances, so the comparison structure of `min(..., key=itemgetter(1))`
  over real distances is exactly the comparison structure of the integer
  squared distances `calc_dist_sq`; theorems about nearest selection also
  state the `Real.sqrt` form.
* Python faults (ZeroDivisionError from `area1 / area2` with `area2 == 0` at
  line 138, IndexError from `position_list[-1]` on an empty deque at line
  159) are modelled by `Option`: `none` means the frame step raises.
* The configuration constants `NUM_FRAMES_TO_TRACK_PATH` (K),
  `NUM_FRAMES_TO_CONFIRM_OBJECTS` (C), `NUM_FRAMES_TO_REMOVE_OBJECTS` (R)
  and `MAX_RATIO_OF_AREA_CHANGE` (T) live in `recognition_conf`, which is
  not part of the sources here; they are universally quantified parameters.
-/

namespace TritonEye

/-- A detection as the association engine consumes it: center of mass,
minimal oriented bounding rectangle and contour area (the three
geometry-collaborator projections of a contour). -/
structure Det (Rect : Type) where
  pos : ℤ × ℤ
  rect : Rect
  area : ℚ
deriving DecidableEq

/-- Squared Euclidean distance between two integer centers: the square of
`calc_dist` at `object_tracking.py:33`.  `math.sqrt` is strictly monotone,
so all comparisons of `calc_dist` values are comparisons of these. -/
def calc_dist_sq (p q : ℤ × ℤ) : ℤ :=
  (p.1 - q.1) ^ 2 + (p.2 - q.2) ^ 2

/-- `class SingleObjectInfo` (`object_tracking.py:39`): `prev_det` bundles
`prev_contour` with its cached `prev_min_rect` and `prev_cnt_area`. -/
structure SingleObjectInfo (Rect : Type) where
  ID : ℕ
  prev_det : Det Rect
  position_list : List (ℤ × ℤ)
  last_actual_update : ℕ
  num_actual_updates : ℕ
deriving DecidableEq

/-- Append on a `deque(maxlen=K)` (`object_tracking.py:45`): append on the
right, silently dropping from the left whenever the capacity `K` would be
exceeded. -/
def dequeAppend (K : ℕ) (l : List (ℤ × ℤ)) (x : ℤ × ℤ) : List (ℤ × ℤ) :=
  (l ++ [x]).drop (l.length + 1 - K)

/-- `SingleObjectInfo.update_movement` (`object_tracking.py:49-58`). -/
def update_movement (K : ℕ) {Rect : Type} (o : SingleObjectInfo Rect)
    (d : Det Rect) ( is_actual : Bool) : SingleObjectInfo Rect :=
  { o with
    prev_det := d
    position_list := dequeAppend K o.position_list d.pos
    last_actual_update := if is_actual then 0 else o.last_actual_update
    num_actual_updates :=
      if is_actual then o.num_actual_updates + 1 else o.num_actual_updates }

/-- The tracker state: the two fields of `TEObjectTracker` that the
association engine reads and writes (`object_tracking.py:73-74`). -/
structure TEObjectTracker (Rect : Type) where
  total_seen_objects : ℕ
  tracked_objects : List (SingleObjectInfo Rect)
deriving DecidableEq

/-- `TEObjectTracker.__init__` store initialisation (`object_tracking.py:73-74`). -/
def initState (Rect : Type) : TEObjectTracker Rect :=
  { total_seen_objects := 0, tracked_objects := [] }

/-- `check_area_size_similarity` (`object_tracking.py:137-138`):
`abs(1 - (area1 / area2)) < conf.MAX_RATIO_OF_AREA_CHANGE`.  A zero
`area2` makes the Python division raise `ZeroDivisionError`, modelled as
`none`; there is no guard in the source. -/
def check_area_size_similarity (T : ℚ) (area1 area2 : ℚ) : Option Bool :=
  if area2 = 0 then none else some (decide (|1 - area1 / area2| < T))

/-- The candidate test of `object_tracking.py:157-158`: short-circuit `and`
of the rotated-rectangle intersection and the area similarity, so the
division is only reached when the rectangles intersect. -/
def detection_matches {Rect : Type} (inter : Rect → Rect → Bool) (T : ℚ)
    (d : Det Rect) (o : SingleObjectInfo Rect) : Option Bool :=
  if inter d.rect o.prev_det.rect then
    check_area_size_similarity T d.area o.prev_det.area
  else
    some false

/-- Building `inter_objects` (`object_tracking.py:154-160`) for one
detection: scan the tracked list, keeping `(index, squared distance to the
object's most recent recorded position)` for every object passing the
candidate test.  `none` models a raised exception: either the division by a
zero recorded area, or `position_list[-1]` on an empty history. -/
def candidatesAux {Rect : Type} (inter : Rect → Rect → Bool) (T : ℚ)
    (d : Det Rect) : ℕ → List (SingleObjectInfo Rect) → Option (List (ℕ × ℤ))
  | _, [] => some []
  | i, o :: rest =>
    match detection_matches inter T d o with
    | none => none
    | some false => candidatesAux inter T d (i + 1) rest
    | some true =>
      match o.position_list.getLast? with
      | none => none
      | some lp =>
        match candidatesAux inter T d (i + 1) rest with
        | none => none
        | some tl => some ((i, calc_dist_sq d.pos lp) :: tl)

/-- The scan of Python's `min(inter_objects, key=operator.itemgetter(1))`
(`object_tracking.py:164`): keep the current best, replace it only on a
strictly smaller key, so the first minimal element wins. -/
def argminGo : ℕ × ℤ → List (ℕ × ℤ) → ℕ
  | best, [] => best.1
  | best, e :: rest => if e.2 < best.2 then argminGo e rest else argminGo best rest

/-- Index of the matched object: `min(..., key=itemgetter(1))[0]` on a
non-empty candidate list, `none` when `len(inter_objects) == 0`. -/
def argmin_key : List (ℕ × ℤ) → Option ℕ
  | [] => none
  | e :: rest => some (argminGo e rest)

/-- Processing of one detection inside phase 2 (`object_tracking.py:148-171`):
either the nearest candidate receives a real update in place, or a fresh
object with id `total_seen_objects` is created, really updated and appended,
and the counter is incremented.  (In `SingleObjectInfo.__init__` the three
shape fields start as `None` and are overwritten by the immediate
`update_movement(new_cnt, True)` before any read, so the embedding seeds
them from the detection.) -/
def process_detection (K : ℕ) {Rect : Type} (inter : Rect → Rect → Bool)
    (T : ℚ) (s : TEObjectTracker Rect) (d : Det Rect) :
    Option (TEObjectTracker Rect) :=
  match candidatesAux inter T d 0 s.tracked_objects with
  | none => none
  | some cands =>
    match argmin_key cands with
    | some i =>
      match s.tracked_objects[i]? with
      | none => none
      | some o =>
        some { s with
          tracked_objects :=
            s.tracked_objects.set i (update_movement K o d true) }
    | none =>
      some { s with
        tracked_objects := s.tracked_objects ++
          [update_movement K
            { ID := s.total_seen_objects, prev_det := d, position_list := [],
              last_actual_update := 0, num_actual_updates := 0 } d true]
        total_seen_objects := s.total_seen_objects + 1 }

/-- Phase 1 of `track_objects_from_contours` (`object_tracking.py:142-144`):
age every object by one frame. -/
def phase1 {Rect : Type} (s : TEObjectTracker Rect) : TEObjectTracker Rect :=
  { s with
    tracked_objects := s.tracked_objects.map
      (fun o => { o with last_actual_update := o.last_actual_update + 1 }) }

/-- Phase 2 (`object_tracking.py:147-171`): fold `process_detection` over the
detections in the order supplied. -/
def phase2 (K : ℕ) {Rect : Type} (inter : Rect → Rect → Bool) (T : ℚ)
    (s : TEObjectTracker Rect) (ds : List (Det Rect)) :
    Option (TEObjectTracker Rect) :=
  ds.foldlM (process_detection K inter T) s

/-- Phase 3 (`object_tracking.py:173-176`): keep exactly the objects with
`last_actual_update < NUM_FRAMES_TO_REMOVE_OBJECTS`. -/
def phase3 (R : ℕ) {Rect : Type} (s : TEObjectTracker Rect) :
    TEObjectTracker Rect :=
  { s with
    tracked_objects := s.tracked_objects.filter
      (fun o => decide (o.last_actual_update < R)) }

/-- Phase 4 (`object_tracking.py:178-185`): every remaining object that was
not really updated this frame receives `update_movement(prev_contour, False)`. -/
def phase4 (K : ℕ) {Rect : Type} (s : TEObjectTracker Rect) :
    TEObjectTracker Rect :=
  { s with
    tracked_objects := s.tracked_objects.map
      (fun o =>
        if o.last_actual_update = 0 then o
        else update_movement K o o.prev_det false) }

/-- `track_objects_from_contours` (`object_tracking.py:141-185`): the four
phases in order; `none` when the Python code raises inside phase 2. -/
def track_objects_from_contours (K R : ℕ) {Rect : Type}
    (inter : Rect → Rect → Bool) (T : ℚ) (s : TEObjectTracker Rect)
    (ds : List (Det Rect)) : Option (TEObjectTracker Rect) :=
  match phase2 K inter T (phase1 s) ds with
  | none => none
  | some s2 => some (phase4 K (phase3 R s2))

/-- `flush_objects` (`object_tracking.py:188-190`): empty the store and reset
the id counter to its initial value. -/
def flush_objects {Rect : Type} (_s : TEObjectTracker Rect) :
    TEObjectTracker Rect :=
  { total_seen_objects := 0, tracked_objects := [] }

/-- `get_tracked_objects` (`object_tracking.py:112-120`): the confirmed
objects, optionally restricted to those really updated in the current frame.
In Python 2 `filter` builds fresh lists, leaving the store untouched. -/
def get_tracked_objects (C : ℕ) {Rect : Type} (s : TEObjectTracker Rect)
    (only_now_seen_objects : Bool) : List (SingleObjectInfo Rect) :=
  let confirmed := s.tracked_objects.filter
    (fun o => decide (C < o.num_actual_updates))
  if only_now_seen_objects then
    confirmed.filter (fun o => decide (o.last_actual_update = 0))
  else
    confirmed

/-- The states one tracker instance can reach through any sequence of frame
steps and resets from a fresh instance. -/
inductive Reachable (K R : ℕ) {Rect : Type} (inter : Rect → Rect → Bool)
    (T : ℚ) : TEObjectTracker Rect → Prop
  | init : Reachable K R inter T (initState Rect)
  | step {s s' : TEObjectTracker Rect} {ds : List (Det Rect)} :
      Reachable K R inter T s →
      track_objects_from_contours K R inter T s ds = some s' →
      Reachable K R inter T s'
  | flush {s : TEObjectTracker Rect} :
      Reachable K R inter T s → Reachable K R inter T (flush_objects s)

/-! ### Basic lemmas about the bounded history and single-object updates -/

/-- Dropping strictly fewer elements than the length preserves the last
element. -/
theorem getLast?_drop_of_lt {α : Type} :
    ∀ (m : List α) (n : ℕ), n < m.length → (m.drop n).getLast? = m.getLast?
  | _, 0, _ => rfl
  | a :: t, n + 1, h => by
    have ht : n < t.length := by simpa using Nat.lt_of_succ_lt_succ h
    have hne : t ≠ [] := by
      intro hnil
      rw [hnil] at ht
      exact Nat.not_lt_zero n ht
    rw [List.drop_succ_cons, getLast?_drop_of_lt t n ht]
    obtain ⟨b, t', rfl⟩ := List.exists_cons_of_ne_nil hne
    simp

@[simp] theorem dequeAppend_length (K : ℕ) (l : List (ℤ × ℤ)) (x : ℤ × ℤ) :
    (dequeAppend K l x).length = min (l.length + 1) K := by
  simp only [dequeAppend, List.length_drop, List.length_append,
    List.length_cons, List.length_nil]
  omega

/-- With a positive capacity, the freshly appended entry is the most recent
one. -/
theorem dequeAppend_getLast? {K : ℕ} (hK : 0 < K) (l : List (ℤ × ℤ))
    (x : ℤ × ℤ) : (dequeAppend K l x).getLast? = some x := by
  unfold dequeAppend
  rw [getLast?_drop_of_lt, List.getLast?_concat]
  simp only [List.length_append, List.length_cons, List.length_nil]
  omega

/-- With a positive capacity, an append never leaves the history empty. -/
theorem dequeAppend_ne_nil {K : ℕ} (hK : 0 < K) (l : List (ℤ × ℤ))
    (x : ℤ × ℤ) : dequeAppend K l x ≠ [] := by
  intro h
  have := dequeAppend_length K l x
  rw [h] at this
  simp only [List.length_nil] at this
  omega

/-- Appending at capacity drops exactly the oldest entry. -/
theorem dequeAppend_at_capacity {K : ℕ} (hK : 0 < K) {l : List (ℤ × ℤ)}
    (hl : l.length = K) (x : ℤ × ℤ) : dequeAppend K l x = l.tail ++ [x] := by
  have h1 : l.length + 1 - K = 1 := by omega
  have hne : l ≠ [] := by
    intro hnil
    rw [hnil] at hl
    simp at hl
    omega
  unfold dequeAppend
  rw [h1]
  obtain ⟨b, t, rfl⟩ := List.exists_cons_of_ne_nil hne
  simp

@[simp] theorem update_movement_ID {Rect : Type} (K : ℕ)
    (o : SingleObjectInfo Rect) (d : Det Rect) (b : Bool) :
    (update_movement K o d b).ID = o.ID := rfl

@[simp] theorem update_movement_prev_det {Rect : Type} (K : ℕ)
    (o : SingleObjectInfo Rect) (d : Det Rect) (b : Bool) :
    (update_movement K o d b).prev_det = d := rfl

@[simp] theorem update_movement_position_list {Rect : Type} (K : ℕ)
    (o : SingleObjectInfo Rect) (d : Det Rect) (b : Bool) :
    (update_movement K o d b).position_list =
      dequeAppend K o.position_list d.pos := rfl

@[simp] theorem update_movement_true_last {Rect : Type} (K : ℕ)
    (o : SingleObjectInfo Rect) (d : Det Rect) :
    (update_movement K o d true).last_actual_update = 0 := rfl

@[simp] theorem update_movement_false_last {Rect : Type} (K : ℕ)
    (o : SingleObjectInfo Rect) (d : Det Rect) :
    (update_movement K o d false).last_actual_update =
      o.last_actual_update := rfl

@[simp] theorem update_movement_true_num {Rect : Type} (K : ℕ)
    (o : SingleObjectInfo Rect) (d : Det Rect) :
    (update_movement K o d true).num_actual_updates =
      o.num_actual_updates + 1 := rfl

@[simp] theorem update_movement_false_num {Rect : Type} (K : ℕ)
    (o : SingleObjectInfo Rect) (d : Det Rect) :
    (update_movement K o d false).num_actual_updates =
      o.num_actual_updates := rfl

/-! ### Structure of one phase-2 step -/

/-- A successful `process_detection` either really updates the nearest
candidate in place, or appends a freshly created object and bumps the id
counter. -/
theorem process_detection_cases {Rect : Type} {K : ℕ}
    {inter : Rect → Rect → Bool} {T : ℚ} {s s' : TEObjectTracker Rect}
    {d : Det Rect} (h : process_detection K inter T s d = some s') :
    (∃ cands i o, candidatesAux inter T d 0 s.tracked_objects = some cands ∧
      argmin_key cands = some i ∧ s.tracked_objects[i]? = some o ∧
      s' = { s with
        tracked_objects := s.tracked_objects.set i (update_movement K o d true) }) ∨
    (∃ cands, candidatesAux inter T d 0 s.tracked_objects = some cands ∧
      argmin_key cands = none ∧
      s' = { s with
        tracked_objects := s.tracked_objects ++
          [update_movement K
            { ID := s.total_seen_objects, prev_det := d, position_list := [],
              last_actual_update := 0, num_actual_updates := 0 } d true]
        total_seen_objects := s.total_seen_objects + 1 }) := by
  cases hc : candidatesAux inter T d 0 s.tracked_objects with
  | none => simp only [process_detection, hc] at h; exact Option.noConfusion h
  | some cands =>
    cases ha : argmin_key cands with
    | none =>
      simp only [process_detection, hc, ha, Option.some_inj] at h
      exact Or.inr ⟨cands, rfl, ha, h.symm⟩
    | some i =>
      cases hi : s.tracked_objects[i]? with
      | none =>
        simp only [process_detection, hc, ha, hi] at h
        exact Option.noConfusion h
      | some o =>
        simp only [process_detection, hc, ha, hi, Option.some_inj] at h
        exact Or.inl ⟨cands, i, o, rfl, ha, hi, h.symm⟩

/-- Through one phase-2 step, the object at a fixed index is either left
untouched or receives exactly one real update from the processed
detection. -/
theorem process_detection_get {Rect : Type} {K : ℕ}
    {inter : Rect → Rect → Bool} {T : ℚ} {s s' : TEObjectTracker Rect}
    {d : Det Rect} {i : ℕ} {o : SingleObjectInfo Rect}
    (h : process_detection K inter T s d = some s')
    (hi : s.tracked_objects[i]? = some o) :
    ∃ o1, s'.tracked_objects[i]? = some o1 ∧
      (o1 = o ∨ o1 = update_movement K o d true) := by
  have hlen : i < s.tracked_objects.length := by
    rcases List.getElem?_eq_some.mp hi with ⟨h', _⟩
    exact h'
  rcases process_detection_cases h with
    ⟨cands, j, oj, _, _, hj, rfl⟩ | ⟨cands, _, _, rfl⟩
  · by_cases hij : i = j
    · subst hij
      have ho : o = oj := Option.some_inj.mp (hi.symm.trans hj)
      subst ho
      exact ⟨update_movement K o d true, by simp [List.getElem?_set_self hlen],
        Or.inr rfl⟩
    · exact ⟨o, by simpa [List.getElem?_set_ne (Ne.symm hij)] using hi, Or.inl rfl⟩
  · exact ⟨o, by simpa [List.getElem?_append_left hlen] using hi, Or.inl rfl⟩

/-- Through the whole of phase 2, the object at a fixed pre-existing index
either survives unchanged or is really updated by at least one and at most
`ds.length` detections (each real update resets the miss counter and adds
one confirmation). -/
theorem phase2_get {Rect : Type} {K : ℕ} {inter : Rect → Rect → Bool}
    {T : ℚ} {ds : List (Det Rect)} {s s2 : TEObjectTracker Rect} {i : ℕ}
    {o : SingleObjectInfo Rect} (h : phase2 K inter T s ds = some s2)
    (hi : s.tracked_objects[i]? = some o) :
    ∃ o2, s2.tracked_objects[i]? = some o2 ∧
      (o2 = o ∨ (o2.last_actual_update = 0 ∧
        o.num_actual_updates < o2.num_actual_updates ∧
        o2.num_actual_updates ≤ o.num_actual_updates + ds.length)) := by
  induction ds generalizing s o with
  | nil =>
    refine ⟨o, ?_, Or.inl rfl⟩
    simp only [phase2, List.foldlM_nil] at h
    rw [← Option.some_injective _ h]
    exact hi
  | cons d ds ih =>
    simp only [phase2, List.foldlM_cons] at h
    cases hp : process_detection K inter T s d with
    | none => rw [hp] at h; exact absurd h (by simp)
    | some s1 =>
      rw [hp] at h
      rcases process_detection_get hp hi with ⟨o1, hg1, ho1⟩
      rcases ih h hg1 with ⟨o2, h2, ho2⟩
      refine ⟨o2, h2, ?_⟩
      rcases ho1 with rfl | rfl
      · rcases ho2 with rfl | ⟨ha, hb, hc⟩
        · exact Or.inl rfl
        · exact Or.inr ⟨ha, hb, by simpa using Nat.le_trans hc (by simp)⟩
      · rcases ho2 with rfl | ⟨ha, hb, hc⟩
        · refine Or.inr ⟨by simp, by simp, ?_⟩
          simp only [update_movement_true_num, List.length_cons]
          omega
        · refine Or.inr ⟨ha, ?_, ?_⟩
          · have := @update_movement_true_num Rect K o d
            omega
          · have := @update_movement_true_num Rect K o d
            simp only [List.length_cons]
            omega

/-! ### Store invariants: bounded histories and coherent last positions -/

/-- Every tracked object's position history has at most `K` entries. -/
def LenBound (K : ℕ) {Rect : Type} (s : TEObjectTracker Rect) : Prop :=
  ∀ o ∈ s.tracked_objects, o.position_list.length ≤ K

/-- Every tracked object's most recent recorded position is the center of
its stored shape (so `position_list[-1]` is defined and predictable). -/
def LastPos {Rect : Type} (s : TEObjectTracker Rect) : Prop :=
  ∀ o ∈ s.tracked_objects, o.position_list.getLast? = some o.prev_det.pos

theorem update_movement_length_le {Rect : Type} (K : ℕ)
    (o : SingleObjectInfo Rect) (d : Det Rect) (b : Bool) :
    (update_movement K o d b).position_list.length ≤ K := by
  simp only [update_movement_position_list, dequeAppend_length]
  omega

theorem update_movement_getLast {Rect : Type} {K : ℕ} (hK : 0 < K)
    (o : SingleObjectInfo Rect) (d : Det Rect) (b : Bool) :
    (update_movement K o d b).position_list.getLast? =
      some (update_movement K o d b).prev_det.pos := by
  simp [dequeAppend_getLast? hK]

theorem mem_phase3 {Rect : Type} {R : ℕ} {s : TEObjectTracker Rect}
    {o : SingleObjectInfo Rect} :
    o ∈ (phase3 R s).tracked_objects ↔
      o ∈ s.tracked_objects ∧ o.last_actual_update < R := by
  simp [phase3]

theorem mem_phase4 {Rect : Type} {K : ℕ} {s : TEObjectTracker Rect}
    {x : SingleObjectInfo Rect} :
    x ∈ (phase4 K s).tracked_objects ↔
      ∃ o ∈ s.tracked_objects,
        (if o.last_actual_update = 0 then o
          else update_movement K o o.prev_det false) = x := by
  simp [phase4]

/-- A state predicate preserved by every single-detection step is preserved
by the whole of phase 2. -/
theorem phase2_preserves {Rect : Type} {K : ℕ} {inter : Rect → Rect → Bool}
    {T : ℚ} {P : TEObjectTracker Rect → Prop}
    (hstep : ∀ {t t' : TEObjectTracker Rect} {d : Det Rect}, P t →
      process_detection K inter T t d = some t' → P t') :
    ∀ {ds : List (Det Rect)} {s s2 : TEObjectTracker Rect}, P s →
      phase2 K inter T s ds = some s2 → P s2 := by
  intro ds
  induction ds with
  | nil =>
    intro s s2 hP h
    simp only [phase2, List.foldlM_nil] at h
    rw [← Option.some_inj.mp h]
    exact hP
  | cons d ds ih =>
    intro s s2 hP h
    simp only [phase2, List.foldlM_cons] at h
    cases hp : process_detection K inter T s d with
    | none => rw [hp] at h; exact Option.noConfusion h
    | some s1 =>
      rw [hp] at h
      exact ih (hstep hP hp) h

theorem lenBound_process_detection {Rect : Type} {K : ℕ}
    {inter : Rect → Rect → Bool} {T : ℚ} {s s' : TEObjectTracker Rect}
    {d : Det Rect} (h : LenBound K s)
    (hp : process_detection K inter T s d = some s') : LenBound K s' := by
  rcases process_detection_cases hp with
    ⟨cands, i, o, _, _, hi, rfl⟩ | ⟨cands, _, _, rfl⟩
  · intro x hx
    rcases List.mem_or_eq_of_mem_set hx with hx' | rfl
    · exact h x hx'
    · exact update_movement_length_le K o d true
  · intro x hx
    rcases List.mem_append.mp hx with hx' | hx'
    · exact h x hx'
    · rw [List.mem_singleton.mp hx']
      exact update_movement_length_le K _ d true

theorem lastPos_process_detection {Rect : Type} {K : ℕ} (hK : 0 < K)
    {inter : Rect → Rect → Bool} {T : ℚ} {s s' : TEObjectTracker Rect}
    {d : Det Rect} (h : LastPos s)
    (hp : process_detection K inter T s d = some s') : LastPos s' := by
  rcases process_detection_cases hp with
    ⟨cands, i, o, _, _, hi, rfl⟩ | ⟨cands, _, _, rfl⟩
  · intro x hx
    rcases List.mem_or_eq_of_mem_set hx with hx' | rfl
    · exact h x hx'
    · exact update_movement_getLast hK o d true
  · intro x hx
    rcases List.mem_append.mp hx with hx' | hx'
    · exact h x hx'
    · rw [List.mem_singleton.mp hx']
      exact update_movement_getLast hK _ d true

theorem lenBound_phase1 {Rect : Type} {K : ℕ} {s : TEObjectTracker Rect}
    (h : LenBound K s) : LenBound K (phase1 s) := by
  intro o ho
  simp only [phase1, List.mem_map] at ho
  obtain ⟨a, ha, rfl⟩ := ho
  exact h a ha

theorem lastPos_phase1 {Rect : Type} {s : TEObjectTracker Rect}
    (h : LastPos s) : LastPos (phase1 s) := by
  intro o ho
  simp only [phase1, List.mem_map] at ho
  obtain ⟨a, ha, rfl⟩ := ho
  exact h a ha

theorem lenBound_track {Rect : Type} {K R : ℕ} {inter : Rect → Rect → Bool}
    {T : ℚ} {s s' : TEObjectTracker Rect} {ds : List (Det Rect)}
    (h : LenBound K s)
    (ht : track_objects_from_contours K R inter T s ds = some s') :
    LenBound K s' := by
  cases h2 : phase2 K inter T (phase1 s) ds with
  | none =>
    simp only [track_objects_from_contours, h2] at ht
    exact Option.noConfusion ht
  | some s2 =>
    simp only [track_objects_from_contours, h2, Option.some_inj] at ht
    subst ht
    have hb2 : LenBound K s2 :=
      phase2_preserves (fun hP hq => lenBound_process_detection hP hq)
        (lenBound_phase1 h) h2
    intro x hx
    rcases mem_phase4.mp hx with ⟨o, ho, rfl⟩
    have hbo := hb2 o (mem_phase3.mp ho).1
    by_cases h0 : o.last_actual_update = 0
    · simpa [h0] using hbo
    · simp only [h0, if_neg h0]
      exact update_movement_length_le K o o.prev_det false

theorem lastPos_track {Rect : Type} {K R : ℕ} (hK : 0 < K)
    {inter : Rect → Rect → Bool} {T : ℚ} {s s' : TEObjectTracker Rect}
    {ds : List (Det Rect)} (h : LastPos s)
    (ht : track_objects_from_contours K R inter T s ds = some s') :
    LastPos s' := by
  cases h2 : phase2 K inter T (phase1 s) ds with
  | none =>
    simp only [track_objects_from_contours, h2] at ht
    exact Option.noConfusion ht
  | some s2 =>
    simp only [track_objects_from_contours, h2, Option.some_inj] at ht
    subst ht
    have hb2 : LastPos s2 :=
      phase2_preserves (fun hP hq => lastPos_process_detection hK hP hq)
        (lastPos_phase1 h) h2
    intro x hx
    rcases mem_phase4.mp hx with ⟨o, ho, rfl⟩
    have hbo := hb2 o (mem_phase3.mp ho).1
    by_cases h0 : o.last_actual_update = 0
    · simpa [h0] using hbo
    · simpa [h0] using update_movement_getLast hK o o.prev_det false

/-- The history bound `K` holds in every reachable state, for every window
size `K` (even `K = 0`). -/
theorem lenBound_reachable {Rect : Type} {K R : ℕ}
    {inter : Rect → Rect → Bool} {T : ℚ} {s : TEObjectTracker Rect}
    (h : Reachable K R inter T s) : LenBound K s := by
  induction h with
  | init => intro o ho; exact absurd ho (by simp [initState])
  | step _ ht ih => exact lenBound_track ih ht
  | flush _ _ => intro o ho; exact absurd ho (by simp [flush_objects])

/-- With a positive window size, every reachable state records each object's
most recent position as the center of its stored shape. -/
theorem lastPos_reachable {Rect : Type} {K R : ℕ} (hK : 0 < K)
    {inter : Rect → Rect → Bool} {T : ℚ} {s : TEObjectTracker Rect}
    (h : Reachable K R inter T s) : LastPos s := by
  induction h with
  | init => intro o ho; exact absurd ho (by simp [initState])
  | step _ ht ih => exact lastPos_track hK ih ht
  | flush _ _ => intro o ho; exact absurd ho (by simp [flush_objects])

/-! ### Id discipline between resets -/

/-- Ids of the stored objects are strictly increasing in store (= creation)
order, and all of them are below the id counter. -/
def IdInv {Rect : Type} (s : TEObjectTracker Rect) : Prop :=
  List.Pairwise (fun a b => a < b) (s.tracked_objects.map (fun o => o.ID)) ∧
  ∀ o ∈ s.tracked_objects, o.ID < s.total_seen_objects

/-- Writing back the value already stored at an index is the identity. -/
theorem set_getElem_self {α : Type} :
    ∀ (l : List α) (i : ℕ) (x : α), l[i]? = some x → l.set i x = l
  | [], i, x, h => by simp at h
  | a :: t, 0, x, h => by
    simp only [List.getElem?_cons_zero, Option.some_inj] at h
    simp [List.set, h]
  | a :: t, i + 1, x, h => by
    simp only [List.getElem?_cons_succ] at h
    simp [List.set, set_getElem_self t i x h]

/-- One phase-2 step preserves the id discipline, never decreases the id
counter, and every object in the new store either keeps an id already
present or carries a fresh id at or above the old counter value. -/
theorem ids_process_detection {Rect : Type} {K : ℕ}
    {inter : Rect → Rect → Bool} {T : ℚ} {s s' : TEObjectTracker Rect}
    {d : Det Rect} (hInv : IdInv s)
    (h : process_detection K inter T s d = some s') :
    IdInv s' ∧ s.total_seen_objects ≤ s'.total_seen_objects ∧
      ∀ o' ∈ s'.tracked_objects,
        (∃ o ∈ s.tracked_objects, o'.ID = o.ID) ∨
          s.total_seen_objects ≤ o'.ID := by
  rcases process_detection_cases h with
    ⟨cands, i, o, _, _, hi, rfl⟩ | ⟨cands, _, _, rfl⟩
  · have hmap : (s.tracked_objects.set i (update_movement K o d true)).map
        (fun x => x.ID) = s.tracked_objects.map (fun x => x.ID) := by
      rw [List.map_set]
      exact set_getElem_self _ i _
        (by rw [List.getElem?_map, hi]; rfl)
    refine ⟨⟨?_, ?_⟩, Nat.le_refl _, ?_⟩
    · simpa [hmap] using hInv.1
    · intro x hx
      rcases List.mem_or_eq_of_mem_set hx with hx' | rfl
      · exact hInv.2 x hx'
      · simpa using hInv.2 o (List.getElem?_mem hi)
    · intro x hx
      rcases List.mem_or_eq_of_mem_set hx with hx' | rfl
      · exact Or.inl ⟨x, hx', rfl⟩
      · exact Or.inl ⟨o, List.getElem?_mem hi, rfl⟩
  · refine ⟨⟨?_, ?_⟩, Nat.le_succ _, ?_⟩
    · rw [List.map_append]
      refine List.pairwise_append.mpr ⟨hInv.1, List.pairwise_singleton _ _, ?_⟩
      intro a ha b hb
      simp only [List.map_cons, List.map_nil, List.mem_singleton] at hb
      rcases List.mem_map.mp ha with ⟨oa, hoa, rfl⟩
      rw [hb]
      simpa using hInv.2 oa hoa
    · intro x hx
      rcases List.mem_append.mp hx with hx' | hx'
      · exact Nat.lt_succ_of_lt (hInv.2 x hx')
      · rw [List.mem_singleton.mp hx']
        simp
    · intro x hx
      rcases List.mem_append.mp hx with hx' | hx'
      · exact Or.inl ⟨x, hx', rfl⟩
      · rw [List.mem_singleton.mp hx']
        exact Or.inr (by simp)

/-- Phase 2 preserves the id discipline; ids in the result are either
inherited or fresh. -/
theorem ids_phase2 {Rect : Type} {K : ℕ} {inter : Rect → Rect → Bool}
    {T : ℚ} : ∀ {ds : List (Det Rect)} {s s2 : TEObjectTracker Rect},
    IdInv s → phase2 K inter T s ds = some s2 →
    IdInv s2 ∧ s.total_seen_objects ≤ s2.total_seen_objects ∧
      ∀ o2 ∈ s2.tracked_objects,
        (∃ o ∈ s.tracked_objects, o2.ID = o.ID) ∨
          s.total_seen_objects ≤ o2.ID := by
  intro ds
  induction ds with
  | nil =>
    intro s s2 hInv h
    simp only [phase2, List.foldlM_nil] at h
    rw [← Option.some_inj.mp h]
    exact ⟨hInv, Nat.le_refl _, fun o2 h2 => Or.inl ⟨o2, h2, rfl⟩⟩
  | cons d ds ih =>
    intro s s2 hInv h
    simp only [phase2, List.foldlM_cons] at h
    cases hp : process_detection K inter T s d with
    | none => rw [hp] at h; exact Option.noConfusion h
    | some s1 =>
      rw [hp] at h
      obtain ⟨hInv1, hle1, hmem1⟩ := ids_process_detection hInv hp
      obtain ⟨hInv2, hle2, hmem2⟩ := ih hInv1 h
      refine ⟨hInv2, Nat.le_trans hle1 hle2, ?_⟩
      intro o2 h2
      rcases hmem2 o2 h2 with ⟨o1, ho1, he⟩ | hfresh
      · rcases hmem1 o1 ho1 with ⟨o, ho, he'⟩ | hfresh'
        · exact Or.inl ⟨o, ho, he.trans he'⟩
        · exact Or.inr (he ▸ hfresh')
      · exact Or.inr (Nat.le_trans hle1 hfresh)

/-- Phase 1 changes no id and not the counter. -/
theorem ids_phase1 {Rect : Type} {s : TEObjectTracker Rect} :
    (phase1 s).tracked_objects.map (fun o => o.ID) =
      s.tracked_objects.map (fun o => o.ID) ∧
    (phase1 s).total_seen_objects = s.total_seen_objects := by
  exact ⟨by simp only [phase1, List.map_map]; rfl, rfl⟩

/-- Ids of `phase1 s` come from `s` (as a set, with multiplicity even). -/
theorem idInv_phase1 {Rect : Type} {s : TEObjectTracker Rect}
    (hInv : IdInv s) : IdInv (phase1 s) := by
  refine ⟨by rw [ids_phase1.1]; exact hInv.1, ?_⟩
  intro o ho
  simp only [phase1, List.mem_map] at ho
  obtain ⟨a, ha, rfl⟩ := ho
  exact hInv.2 a ha

/-- The whole frame step preserves the id discipline, never decreases the
counter, and introduces only inherited or fresh ids. -/
theorem ids_track {Rect : Type} {K R : ℕ} {inter : Rect → Rect → Bool}
    {T : ℚ} {s s' : TEObjectTracker Rect} {ds : List (Det Rect)}
    (hInv : IdInv s)
    (ht : track_objects_from_contours K R inter T s ds = some s') :
    IdInv s' ∧ s.total_seen_objects ≤ s'.total_seen_objects ∧
      ∀ o' ∈ s'.tracked_objects,
        (∃ o ∈ s.tracked_objects, o'.ID = o.ID) ∨
          s.total_seen_objects ≤ o'.ID := by
  cases h2 : phase2 K inter T (phase1 s) ds with
  | none =>
    simp only [track_objects_from_contours, h2] at ht
    exact Option.noConfusion ht
  | some s2 =>
    simp only [track_objects_from_contours, h2, Option.some_inj] at ht
    subst ht
    obtain ⟨hInv2, hle2, hmem2⟩ := ids_phase2 (idInv_phase1 hInv) h2
    have hids4 : (phase4 K (phase3 R s2)).tracked_objects.map
        (fun o => o.ID) = (phase3 R s2).tracked_objects.map
        (fun o => o.ID) := by
      simp only [phase4, List.map_map]
      refine List.map_congr_left ?_
      intro a _
      simp only [Function.comp_apply]
      by_cases h0 : a.last_actual_update = 0 <;> simp [h0]
    have hsub : List.Sublist
        ((phase3 R s2).tracked_objects.map (fun o => o.ID))
        (s2.tracked_objects.map (fun o => o.ID)) :=
      List.Sublist.map _ (List.filter_sublist _)
    have hmem4 : ∀ x ∈ (phase4 K (phase3 R s2)).tracked_objects,
        ∃ o2 ∈ s2.tracked_objects, x.ID = o2.ID := by
      intro x hx
      rcases mem_phase4.mp hx with ⟨o, ho, rfl⟩
      refine ⟨o, (mem_phase3.mp ho).1, ?_⟩
      by_cases h0 : o.last_actual_update = 0 <;> simp [h0]
    refine ⟨⟨?_, ?_⟩, ?_, ?_⟩
    · rw [hids4]
      exact hInv2.1.sublist hsub
    · intro x hx
      rcases hmem4 x hx with ⟨o2, ho2, he⟩
      exact he ▸ hInv2.2 o2 ho2
    · exact Nat.le_trans (Nat.le_of_eq (@ids_phase1 Rect s).2.symm) hle2
    · intro x hx
      rcases hmem4 x hx with ⟨o2, ho2, he⟩
      rcases hmem2 o2 ho2 with ⟨o1, ho1, he'⟩ | hfresh
      · simp only [phase1, List.mem_map] at ho1
        obtain ⟨a, ha, rfl⟩ := ho1
        exact Or.inl ⟨a, ha, by rw [he, he']⟩
      · exact Or.inr (by rw [he]; exact hfresh)

/-! ### The candidate scan and the first-minimum selection -/

/-- Candidate indices are at least the starting index and strictly
increasing in scan order. -/
theorem candidatesAux_sorted {Rect : Type} {inter : Rect → Rect → Bool}
    {T : ℚ} {d : Det Rect} :
    ∀ (l : List (SingleObjectInfo Rect)) (i : ℕ) {c : List (ℕ × ℤ)},
      candidatesAux inter T d i l = some c →
      (∀ e ∈ c, i ≤ e.1) ∧ List.Pairwise (fun a b : ℕ × ℤ => a.1 < b.1) c
  | [], i, c, h => by
    simp only [candidatesAux, Option.some_inj] at h
    subst h
    exact ⟨by simp, by simp⟩
  | o :: rest, i, c, h => by
    cases hm : detection_matches inter T d o with
    | none => simp only [candidatesAux, hm] at h; exact Option.noConfusion h
    | some b =>
      cases b with
      | false =>
        simp only [candidatesAux, hm] at h
        obtain ⟨h1, h2⟩ := candidatesAux_sorted rest (i + 1) h
        exact ⟨fun e he => Nat.le_of_succ_le (h1 e he), h2⟩
      | true =>
        cases hl : o.position_list.getLast? with
        | none => simp only [candidatesAux, hm, hl] at h; exact Option.noConfusion h
        | some lp =>
          cases hr : candidatesAux inter T d (i + 1) rest with
          | none => simp only [candidatesAux, hm, hl, hr] at h; exact Option.noConfusion h
          | some tl =>
            simp only [candidatesAux, hm, hl, hr, Option.some_inj] at h
            subst h
            obtain ⟨h1, h2⟩ := candidatesAux_sorted rest (i + 1) hr
            refine ⟨?_, ?_⟩
            · intro e he
              rcases List.mem_cons.mp he with rfl | he'
              · exact Nat.le_refl i
              · exact Nat.le_of_succ_le (h1 e he')
            · exact List.pairwise_cons.mpr ⟨fun e he => h1 e he, h2⟩

/-- Every entry of the candidate list corresponds to a stored object that
passed both checks, and its key is the squared distance from the detection
to that object's most recent recorded position. -/
theorem candidatesAux_mem {Rect : Type} {inter : Rect → Rect → Bool}
    {T : ℚ} {d : Det Rect} :
    ∀ (l : List (SingleObjectInfo Rect)) (i : ℕ) {c : List (ℕ × ℤ)},
      candidatesAux inter T d i l = some c →
      ∀ e ∈ c, ∃ j o lp, e.1 = i + j ∧ l[j]? = some o ∧
        detection_matches inter T d o = some true ∧
        o.position_list.getLast? = some lp ∧
        e.2 = calc_dist_sq d.pos lp
  | [], i, c, h => by
    simp only [candidatesAux, Option.some_inj] at h
    subst h
    simp
  | o :: rest, i, c, h => by
    cases hm : detection_matches inter T d o with
    | none => simp only [candidatesAux, hm] at h; exact Option.noConfusion h
    | some b =>
      cases b with
      | false =>
        simp only [candidatesAux, hm] at h
        intro e he
        obtain ⟨j, o', lp, hej, hj, hdm, hlp, hk⟩ :=
          candidatesAux_mem rest (i + 1) h e he
        exact ⟨j + 1, o', lp, by omega, by simpa using hj, hdm, hlp, hk⟩
      | true =>
        cases hl : o.position_list.getLast? with
        | none => simp only [candidatesAux, hm, hl] at h; exact Option.noConfusion h
        | some lp =>
          cases hr : candidatesAux inter T d (i + 1) rest with
          | none => simp only [candidatesAux, hm, hl, hr] at h; exact Option.noConfusion h
          | some tl =>
            simp only [candidatesAux, hm, hl, hr, Option.some_inj] at h
            subst h
            intro e he
            rcases List.mem_cons.mp he with rfl | he'
            · exact ⟨0, o, lp, by omega, by simp, hm, hl, rfl⟩
            · obtain ⟨j, o', lp', hej, hj, hdm, hlp, hk⟩ :=
                candidatesAux_mem rest (i + 1) hr e he'
              exact ⟨j + 1, o', lp', by omega, by simpa using hj, hdm, hlp, hk⟩

/-- Conversely, every stored object passing both checks contributes an
entry to the candidate list. -/
theorem candidatesAux_complete {Rect : Type} {inter : Rect → Rect → Bool}
    {T : ℚ} {d : Det Rect} :
    ∀ (l : List (SingleObjectInfo Rect)) (i : ℕ) {c : List (ℕ × ℤ)},
      candidatesAux inter T d i l = some c →
      ∀ (j : ℕ) (o : SingleObjectInfo Rect), l[j]? = some o →
        detection_matches inter T d o = some true →
        ∃ lp, o.position_list.getLast? = some lp ∧
          (i + j, calc_dist_sq d.pos lp) ∈ c
  | [], i, c, h, j, o, hj, hdm => by simp at hj
  | a :: rest, i, c, h, j, o, hj, hdm => by
    cases hm : detection_matches inter T d a with
    | none => simp only [candidatesAux, hm] at h; exact Option.noConfusion h
    | some b =>
      cases b with
      | false =>
        simp only [candidatesAux, hm] at h
        cases j with
        | zero =>
          simp only [List.getElem?_cons_zero, Option.some_inj] at hj
          rw [← hj] at hdm
          rw [hdm] at hm
          exact Option.noConfusion hm fun hb => Bool.noConfusion hb
        | succ j =>
          simp only [List.getElem?_cons_succ] at hj
          obtain ⟨lp, hlp, hmem⟩ :=
            candidatesAux_complete rest (i + 1) h j o hj hdm
          refine ⟨lp, hlp, ?_⟩
          have hadd : i + (j + 1) = i + 1 + j := by omega
          rw [hadd]
          exact hmem
      | true =>
        cases hl : a.position_list.getLast? with
        | none => simp only [candidatesAux, hm, hl] at h; exact Option.noConfusion h
        | some lp =>
          cases hr : candidatesAux inter T d (i + 1) rest with
          | none => simp only [candidatesAux, hm, hl, hr] at h; exact Option.noConfusion h
          | some tl =>
            simp only [candidatesAux, hm, hl, hr, Option.some_inj] at h
            subst h
            cases j with
            | zero =>
              simp only [List.getElem?_cons_zero, Option.some_inj] at hj
              subst hj
              exact ⟨lp, hl, by simp⟩
            | succ j =>
              simp only [List.getElem?_cons_succ] at hj
              obtain ⟨lp', hlp, hmem⟩ :=
                candidatesAux_complete rest (i + 1) hr j o hj hdm
              refine ⟨lp', hlp, ?_⟩
              have : i + 1 + j = i + (j + 1) := by omega
              rw [← this]
              exact List.mem_cons_of_mem _ hmem

/-- Python's strict-comparison minimum scan returns the FIRST element
attaining the minimal key: among entries with strictly increasing indices,
the returned entry has a minimal key, and any tie has a larger or equal
index. -/
theorem argminGo_first :
    ∀ (l : List (ℕ × ℤ)) (best : ℕ × ℤ),
      List.Pairwise (fun a b : ℕ × ℤ => a.1 < b.1) (best :: l) →
      ∃ e ∈ best :: l, argminGo best l = e.1 ∧
        ∀ e2 ∈ best :: l, e.2 ≤ e2.2 ∧ (e2.2 = e.2 → e.1 ≤ e2.1)
  | [], best, _ => by
    refine ⟨best, by simp, rfl, ?_⟩
    intro e2 he2
    rcases List.mem_cons.mp he2 with rfl | he2'
    · exact ⟨Int.le_refl _, fun _ => Nat.le_refl _⟩
    · simp at he2'
  | a :: rest, best, hs => by
    have hs' : List.Pairwise (fun x y : ℕ × ℤ => x.1 < y.1) (a :: rest) :=
      (List.pairwise_cons.mp hs).2
    have hba : best.1 < a.1 :=
      (List.pairwise_cons.mp hs).1 a (List.mem_cons_self a rest)
    have hbr : List.Pairwise (fun x y : ℕ × ℤ => x.1 < y.1) (best :: rest) := by
      refine List.pairwise_cons.mpr ⟨?_, (List.pairwise_cons.mp hs').2⟩
      intro x hx
      exact (List.pairwise_cons.mp hs).1 x (List.mem_cons_of_mem a hx)
    by_cases hlt : a.2 < best.2
    · obtain ⟨e, hem, heq, hmin⟩ := argminGo_first rest a hs'
      have he_lt_best : e.2 < best.2 :=
        Int.lt_of_le_of_lt (hmin a (List.mem_cons_self a rest)).1 hlt
      refine ⟨e, List.mem_cons_of_mem best hem, ?_, ?_⟩
      · simp only [argminGo, if_pos hlt]
        exact heq
      · intro e2 he2
        rcases List.mem_cons.mp he2 with rfl | he2'
        · exact ⟨Int.le_of_lt he_lt_best,
            fun habs => absurd (habs ▸ he_lt_best) (lt_irrefl _)⟩
        · exact hmin e2 he2'
    · obtain ⟨e, hem, heq, hmin⟩ := argminGo_first rest best hbr
      have he_le_best : e.2 ≤ best.2 :=
        (hmin best (List.mem_cons_self best rest)).1
      refine ⟨e, ?_, ?_, ?_⟩
      · rcases List.mem_cons.mp hem with rfl | hem'
        · exact List.mem_cons_self e _
        · exact List.mem_cons_of_mem best (List.mem_cons_of_mem a hem')
      · simp only [argminGo, if_neg hlt]
        exact heq
      · intro e2 he2
        rcases List.mem_cons.mp he2 with rfl | he2'
        · exact hmin e2 (List.mem_cons_self e2 rest)
        rcases List.mem_cons.mp he2' with rfl | he2''
        · refine ⟨Int.le_trans he_le_best (Int.not_lt.mp hlt), ?_⟩
          intro hae
          have hbe : best.2 = e.2 :=
            Int.le_antisymm (hae ▸ Int.not_lt.mp hlt) he_le_best
          have := (hmin best (List.mem_cons_self best rest)).2 hbe
          exact Nat.le_trans this (Nat.le_of_lt hba)
        · exact hmin e2 (List.mem_cons_of_mem best he2'')

/-- In a list of objects whose ids strictly increase in list order,
position order implies id order. -/
theorem pairwise_ID_le {Rect : Type} {l : List (SingleObjectInfo Rect)}
    (h : List.Pairwise (fun a b => a.ID < b.ID) l) {i j : ℕ}
    {oi oj : SingleObjectInfo Rect} (hij : i ≤ j) (hi : l[i]? = some oi)
    (hj : l[j]? = some oj) : oi.ID ≤ oj.ID := by
  rcases Nat.lt_or_ge i j with hlt | hge
  · obtain ⟨hi', hie⟩ := List.getElem?_eq_some.mp hi
    obtain ⟨hj', hje⟩ := List.getElem?_eq_some.mp hj
    have := List.pairwise_iff_getElem.mp h i j hi' hj' hlt
    rw [hie, hje] at this
    exact Nat.le_of_lt this
  · have : i = j := Nat.le_antisymm hij hge
    subst this
    rw [hi] at hj
    rw [Option.some_inj.mp hj]

/-! ### Claim theorems -/

/-- Claim C8: in every reachable state, and at every intermediate point of a
frame's processing (after aging, after any prefix of the matching phase —
covered by quantifying over all detection lists — after eviction and after
the synthetic updates), every tracked object's `position_list` has at most
`K` entries; and appending to a history already at capacity `K` drops
exactly the oldest entry. -/
theorem C8_history_bound {Rect : Type} {K R : ℕ}
    {inter : Rect → Rect → Bool} {T : ℚ} {s : TEObjectTracker Rect}
    (h : Reachable K R inter T s) :
    (∀ o ∈ s.tracked_objects, o.position_list.length ≤ K) ∧
    (∀ o ∈ (phase1 s).tracked_objects, o.position_list.length ≤ K) ∧
    (∀ (ds : List (Det Rect)) (s2 : TEObjectTracker Rect),
      phase2 K inter T (phase1 s) ds = some s2 →
      (∀ o ∈ s2.tracked_objects, o.position_list.length ≤ K) ∧
      (∀ o ∈ (phase3 R s2).tracked_objects, o.position_list.length ≤ K) ∧
      (∀ o ∈ (phase4 K (phase3 R s2)).tracked_objects,
        o.position_list.length ≤ K)) ∧
    (∀ (l : List (ℤ × ℤ)) (x : ℤ × ℤ), 0 < K → l.length = K →
      dequeAppend K l x = l.tail ++ [x]) := by
  have hb : LenBound K s := lenBound_reachable h
  have hb1 : LenBound K (phase1 s) := lenBound_phase1 hb
  refine ⟨hb, hb1, ?_, fun l x hK hl => dequeAppend_at_capacity hK hl x⟩
  intro ds s2 h2
  have hb2 : LenBound K s2 :=
    phase2_preserves (fun hP hq => lenBound_process_detection hP hq) hb1 h2
  have hb3 : LenBound K (phase3 R s2) := by
    intro o ho
    exact hb2 o (mem_phase3.mp ho).1
  refine ⟨hb2, hb3, ?_⟩
  intro x hx
  rcases mem_phase4.mp hx with ⟨o, ho, rfl⟩
  by_cases h0 : o.last_actual_update = 0
  · simpa [h0] using hb3 o ho
  · simp only [if_neg h0]
    exact update_movement_length_le K o o.prev_det false

/-- Claim C9: `get_tracked_objects` with the flag unset returns exactly the
stored objects with `num_actual_updates > C`; with the flag set, exactly
that subset with `last_actual_update == 0`.  Both are pure reads built by
Python 2 `filter` (fresh lists), so the store is not modified. -/
theorem C9_queries {Rect : Type} (C : ℕ) (s : TEObjectTracker Rect)
    (o : SingleObjectInfo Rect) :
    (o ∈ get_tracked_objects C s false ↔
      o ∈ s.tracked_objects ∧ C < o.num_actual_updates) ∧
    (o ∈ get_tracked_objects C s true ↔
      o ∈ s.tracked_objects ∧ C < o.num_actual_updates ∧
        o.last_actual_update = 0) := by
  refine ⟨?_, ?_⟩
  · simp [get_tracked_objects, List.mem_filter, and_assoc]
  · simp only [get_tracked_objects, if_pos, List.mem_filter,
      decide_eq_true_eq]
    tauto

/-- Claim C10: with a positive history window, every object in every
reachable store has a non-empty `position_list`, and its most recent entry
(the value `position_list[-1]` reads during candidate-distance computation)
is defined and equals the center of the stored shape. -/
theorem C10_history_nonempty {Rect : Type} {K R : ℕ}
    {inter : Rect → Rect → Bool} {T : ℚ} {s : TEObjectTracker Rect}
    (hK : 0 < K) (h : Reachable K R inter T s) :
    ∀ o ∈ s.tracked_objects, o.position_list ≠ [] ∧
      o.position_list.getLast? = some o.prev_det.pos := by
  intro o ho
  have h1 := lastPos_reachable hK h o ho
  refine ⟨?_, h1⟩
  intro hnil
  rw [hnil] at h1
  exact Option.noConfusion h1

/-- Claim C6: consider an object present when a frame starts.  After the
matching phase its miss counter is 0 exactly when it received at least one
real match this frame; if it received none, the counter is exactly its
previous value plus 1 (phase 1 aged it, nothing else touched it).  If it
survives eviction, some object with these same counter values is in the
final store (phases 3 and 4 change neither counter). -/
theorem C6_miss_counter {Rect : Type} (K R : ℕ) (inter : Rect → Rect → Bool)
    (T : ℚ) (s s' s2 : TEObjectTracker Rect) (ds : List (Det Rect)) (i : ℕ)
    (o : SingleObjectInfo Rect)
    (ht : track_objects_from_contours K R inter T s ds = some s')
    (h2 : phase2 K inter T (phase1 s) ds = some s2)
    (hi : s.tracked_objects[i]? = some o) :
    ∃ o2, s2.tracked_objects[i]? = some o2 ∧
      (o2.last_actual_update = 0 ↔
        o.num_actual_updates < o2.num_actual_updates) ∧
      (o2.num_actual_updates = o.num_actual_updates →
        o2.last_actual_update = o.last_actual_update + 1) ∧
      (o2.last_actual_update < R →
        ∃ o' ∈ s'.tracked_objects,
          o'.last_actual_update = o2.last_actual_update ∧
          o'.num_actual_updates = o2.num_actual_updates) := by
  have hs' : s' = phase4 K (phase3 R s2) := by
    simp only [track_objects_from_contours, h2, Option.some_inj] at ht
    exact ht.symm
  subst hs'
  have hi1 : (phase1 s).tracked_objects[i]? =
      some { o with last_actual_update := o.last_actual_update + 1 } := by
    simp only [phase1, List.getElem?_map, hi]
    rfl
  obtain ⟨o2, hgo2, hcases⟩ := phase2_get h2 hi1
  refine ⟨o2, hgo2, ?_, ?_, ?_⟩
  · constructor
    · intro h0
      rcases hcases with rfl | ⟨_, hlt, _⟩
      · exact absurd h0 (Nat.succ_ne_zero _)
      · exact hlt
    · intro hlt
      rcases hcases with rfl | ⟨h0, _, _⟩
      · exact absurd hlt (lt_irrefl _)
      · exact h0
  · intro heq
    rcases hcases with rfl | ⟨_, hlt, _⟩
    · rfl
    · exact absurd heq (Nat.ne_of_gt hlt)
  · intro hR
    have ho2 : o2 ∈ (phase3 R s2).tracked_objects :=
      mem_phase3.mpr ⟨List.getElem?_mem hgo2, hR⟩
    by_cases h0 : o2.last_actual_update = 0
    · exact ⟨o2, mem_phase4.mpr ⟨o2, ho2, by simp [h0]⟩, rfl, rfl⟩
    · exact ⟨update_movement K o2 o2.prev_det false,
        mem_phase4.mpr ⟨o2, ho2, by simp [h0]⟩, by simp, by simp⟩

/-- Claim C7: every object surviving eviction that was not really matched in
this frame (`last_actual_update ≠ 0` after phases 1–3) receives the
synthetic update in phase 4: its existing most recent position (which
equals its stored shape's center by the `LastPos` invariant) is re-appended
through the capacity-bounded `dequeAppend`, while `last_actual_update` and
`num_actual_updates` are left unchanged. -/
theorem C7_synthetic_update {Rect : Type} (K R : ℕ)
    (inter : Rect → Rect → Bool) (T : ℚ) (s s2 : TEObjectTracker Rect)
    (ds : List (Det Rect)) (hK : 0 < K) (hL : LastPos s)
    (h2 : phase2 K inter T (phase1 s) ds = some s2) :
    track_objects_from_contours K R inter T s ds =
      some (phase4 K (phase3 R s2)) ∧
    ∀ o3 ∈ (phase3 R s2).tracked_objects, o3.last_actual_update ≠ 0 →
      o3.position_list.getLast? = some o3.prev_det.pos ∧
      update_movement K o3 o3.prev_det false ∈
        (phase4 K (phase3 R s2)).tracked_objects ∧
      (update_movement K o3 o3.prev_det false).position_list =
        dequeAppend K o3.position_list o3.prev_det.pos ∧
      (update_movement K o3 o3.prev_det false).position_list.length ≤ K ∧
      (update_movement K o3 o3.prev_det false).last_actual_update =
        o3.last_actual_update ∧
      (update_movement K o3 o3.prev_det false).num_actual_updates =
        o3.num_actual_updates := by
  refine ⟨by simp [track_objects_from_contours, h2], ?_⟩
  intro o3 ho3 h0
  have hL2 : LastPos s2 :=
    phase2_preserves (fun hP hq => lastPos_process_detection hK hP hq)
      (lastPos_phase1 hL) h2
  refine ⟨hL2 o3 (mem_phase3.mp ho3).1,
    mem_phase4.mpr ⟨o3, ho3, by simp [h0]⟩, rfl,
    update_movement_length_le K o3 o3.prev_det false, by simp, by simp⟩

/-- When every stored object's rectangle intersects the detection's and some
stored object has a zero recorded area, the candidate scan for that
detection raises (division by zero at the zero-area object, or an earlier
empty-history read) — it never completes with that object excluded. -/
theorem candidatesAux_none {Rect : Type} {inter : Rect → Rect → Bool}
    {T : ℚ} {d : Det Rect} :
    ∀ (l : List (SingleObjectInfo Rect)) (i : ℕ),
      (∀ o ∈ l, inter d.rect o.prev_det.rect = true) →
      (∃ o ∈ l, o.prev_det.area = 0) →
      candidatesAux inter T d i l = none
  | [], i, _, hz => by simp at hz
  | a :: rest, i, hall, hz => by
    have hia : inter d.rect a.prev_det.rect = true :=
      hall a (List.mem_cons_self a rest)
    by_cases ha : a.prev_det.area = 0
    · simp [candidatesAux, detection_matches, hia,
        check_area_size_similarity, ha]
    · have hrest : ∃ o ∈ rest, o.prev_det.area = 0 := by
        rcases hz with ⟨o, ho, hoz⟩
        rcases List.mem_cons.mp ho with rfl | ho'
        · exact absurd hoz ha
        · exact ⟨o, ho', hoz⟩
      have hrn : candidatesAux inter T d (i + 1) rest = none :=
        candidatesAux_none rest (i + 1)
          (fun o ho => hall o (List.mem_cons_of_mem a ho)) hrest
      have hdm : detection_matches inter T d a =
          some (decide (|1 - d.area / a.prev_det.area| < T)) := by
        simp [detection_matches, hia, check_area_size_similarity, ha]
      cases hb : decide (|1 - d.area / a.prev_det.area| < T) with
      | false =>
        rw [hb] at hdm
        simp only [candidatesAux, hdm]
        exact hrn
      | true =>
        rw [hb] at hdm
        cases hl : a.position_list.getLast? with
        | none => simp [candidatesAux, hdm, hl]
        | some lp => simp [candidatesAux, hdm, hl, hrn]

/-- Claim C2, amended to the code: the area-similarity check against a zero
recorded area raises `ZeroDivisionError` (there is no guard), and when such
an object is in the store and rectangles intersect, the whole frame step
aborts with that fault instead of excluding the object. -/
theorem C2_amended {Rect : Type} (K R : ℕ) (inter : Rect → Rect → Bool)
    (T : ℚ) (s : TEObjectTracker Rect) (d : Det Rect) (ds : List (Det Rect))
    (hz : ∃ o ∈ s.tracked_objects, o.prev_det.area = 0)
    (hall : ∀ o ∈ s.tracked_objects, inter d.rect o.prev_det.rect = true) :
    (∀ a1 : ℚ, check_area_size_similarity T a1 0 = none) ∧
    track_objects_from_contours K R inter T s (d :: ds) = none := by
  refine ⟨fun a1 => by simp [check_area_size_similarity], ?_⟩
  have hz1 : ∃ o ∈ (phase1 s).tracked_objects, o.prev_det.area = 0 := by
    rcases hz with ⟨o, ho, hoz⟩
    exact ⟨{ o with last_actual_update := o.last_actual_update + 1 },
      by simp only [phase1, List.mem_map]; exact ⟨o, ho, rfl⟩, hoz⟩
  have hall1 : ∀ o ∈ (phase1 s).tracked_objects,
      inter d.rect o.prev_det.rect = true := by
    intro o ho
    simp only [phase1, List.mem_map] at ho
    obtain ⟨a, ha, rfl⟩ := ho
    exact hall a ha
  have hcand : candidatesAux inter T d 0 (phase1 s).tracked_objects = none :=
    candidatesAux_none _ 0 hall1 hz1
  have hpd : process_detection K inter T (phase1 s) d = none := by
    simp only [process_detection, hcand]
  have h2 : phase2 K inter T (phase1 s) (d :: ds) = none := by
    simp only [phase2, List.foldlM_cons, hpd, Option.bind]
    rfl
  simp only [track_objects_from_contours, h2]

/-- Claim C1, amended to the code: phase 2 never excludes an already-matched
object, so an existing object's `num_actual_updates` can rise several times
in one frame; what holds is that it never decreases and rises by at most
the number of detections supplied, and that phases 3 and 4 change nobody's
confirmation count. -/
theorem C1_amended {Rect : Type} (K R : ℕ) (inter : Rect → Rect → Bool)
    (T : ℚ) (s s' s2 : TEObjectTracker Rect) (ds : List (Det Rect)) (i : ℕ)
    (o : SingleObjectInfo Rect)
    (ht : track_objects_from_contours K R inter T s ds = some s')
    (h2 : phase2 K inter T (phase1 s) ds = some s2)
    (hi : s.tracked_objects[i]? = some o) :
    ∃ o2, s2.tracked_objects[i]? = some o2 ∧
      o.num_actual_updates ≤ o2.num_actual_updates ∧
      o2.num_actual_updates ≤ o.num_actual_updates + ds.length ∧
      ∀ o' ∈ s'.tracked_objects, ∃ o3 ∈ s2.tracked_objects,
        o'.num_actual_updates = o3.num_actual_updates := by
  have hs' : s' = phase4 K (phase3 R s2) := by
    simp only [track_objects_from_contours, h2, Option.some_inj] at ht
    exact ht.symm
  subst hs'
  have hi1 : (phase1 s).tracked_objects[i]? =
      some { o with last_actual_update := o.last_actual_update + 1 } := by
    simp only [phase1, List.getElem?_map, hi]
    rfl
  obtain ⟨o2, hgo2, hcases⟩ := phase2_get h2 hi1
  refine ⟨o2, hgo2, ?_, ?_, ?_⟩
  · rcases hcases with rfl | ⟨_, hlt, _⟩
    · exact Nat.le_refl _
    · exact Nat.le_of_lt hlt
  · rcases hcases with rfl | ⟨_, _, hle⟩
    · exact Nat.le_add_right _ _
    · exact hle
  · intro o' ho'
    rcases mem_phase4.mp ho' with ⟨o3, ho3, rfl⟩
    refine ⟨o3, (mem_phase3.mp ho3).1, ?_⟩
    by_cases h0 : o3.last_actual_update = 0 <;> simp [h0]

/-- Claim C3, amended to the code: along frame steps (no reset), the id
discipline is an invariant — ids strictly increase in creation order, all
sit below the counter, the counter never decreases, and every id in the new
store is either inherited or fresh (at or above the old counter), so ids
are never reassigned while no reset occurs.  `flush_objects`, however,
resets the counter to its initial value 0, after which ids repeat (see the
counterexample). -/
theorem C3_amended {Rect : Type} (K R : ℕ) (inter : Rect → Rect → Bool)
    (T : ℚ) (s s' : TEObjectTracker Rect) (ds : List (Det Rect))
    (hInv : IdInv s)
    (ht : track_objects_from_contours K R inter T s ds = some s') :
    IdInv s' ∧ s.total_seen_objects ≤ s'.total_seen_objects ∧
    (∀ o' ∈ s'.tracked_objects,
      (∃ o ∈ s.tracked_objects, o'.ID = o.ID) ∨
        s.total_seen_objects ≤ o'.ID) ∧
    IdInv (initState Rect) ∧ IdInv (flush_objects s) ∧
    (flush_objects s).total_seen_objects = 0 := by
  obtain ⟨h1, h2, h3⟩ := ids_track hInv ht
  exact ⟨h1, h2, h3, ⟨by simp [initState], by simp [initState]⟩,
    ⟨by simp [flush_objects], by simp [flush_objects]⟩, rfl⟩

/-- Claim C4, amended to the code: eviction runs after matching, so what
holds is: every object whose miss counter is still at least `R` when phase
2 ends is absent from the final store, and indeed every object in the final
store has a miss counter strictly below `R`.  (An object at exactly `R`
after aging that IS matched in phase 2 has its counter reset and survives —
see the counterexample.) -/
theorem C4_amended {Rect : Type} (K R : ℕ) (inter : Rect → Rect → Bool)
    (T : ℚ) (s s2 : TEObjectTracker Rect) (ds : List (Det Rect))
    (o : SingleObjectInfo Rect)
    (h2 : phase2 K inter T (phase1 s) ds = some s2)
    (_ho : o ∈ s2.tracked_objects) (hfsd : R ≤ o.last_actual_update) :
    track_objects_from_contours K R inter T s ds =
      some (phase4 K (phase3 R s2)) ∧
    o ∉ (phase4 K (phase3 R s2)).tracked_objects ∧
    ∀ o' ∈ (phase4 K (phase3 R s2)).tracked_objects,
      o'.last_actual_update < R := by
  have hall : ∀ o' ∈ (phase4 K (phase3 R s2)).tracked_objects,
      o'.last_actual_update < R := by
    intro o' ho'
    rcases mem_phase4.mp ho' with ⟨o3, ho3, rfl⟩
    have h3 := (mem_phase3.mp ho3).2
    by_cases h0 : o3.last_actual_update = 0 <;> simpa [h0] using h3
  refine ⟨by simp [track_objects_from_contours, h2], ?_, hall⟩
  intro hmem
  exact absurd (hall o hmem) (Nat.not_lt.mpr hfsd)

/-- Claim C5: when the candidate set of a detection is non-empty, the object
receiving the real update is a candidate whose most recent recorded
position is at minimal (squared, hence also Euclidean — `Real.sqrt` is
monotone) distance from the detection's position, and any candidate tied at
that distance has a greater or equal id (ids increase along the store, so
the first minimal entry of the scan is the earliest-created); moreover the
candidate list is exactly the set of stored objects passing the
intersection and area tests. -/
theorem C5_nearest_selection {Rect : Type} (K : ℕ)
    (inter : Rect → Rect → Bool) (T : ℚ) (s s' : TEObjectTracker Rect)
    (d : Det Rect) (cands : List (ℕ × ℤ))
    (hsorted : List.Pairwise (fun a b => a.ID < b.ID) s.tracked_objects)
    (hc : candidatesAux inter T d 0 s.tracked_objects = some cands)
    (hne : cands ≠ [])
    (hp : process_detection K inter T s d = some s') :
    ∃ i o lp, argmin_key cands = some i ∧
      s.tracked_objects[i]? = some o ∧
      detection_matches inter T d o = some true ∧
      o.position_list.getLast? = some lp ∧
      (i, calc_dist_sq d.pos lp) ∈ cands ∧
      s'.tracked_objects =
        s.tracked_objects.set i (update_movement K o d true) ∧
      s'.total_seen_objects = s.total_seen_objects ∧
      (∀ (j : ℕ) (oj : SingleObjectInfo Rect),
        s.tracked_objects[j]? = some oj →
        detection_matches inter T d oj = some true →
        ∃ lpj, oj.position_list.getLast? = some lpj ∧
          (j, calc_dist_sq d.pos lpj) ∈ cands) ∧
      (∀ e ∈ cands, ∃ oe lpe, s.tracked_objects[e.1]? = some oe ∧
        oe.position_list.getLast? = some lpe ∧
        e.2 = calc_dist_sq d.pos lpe ∧
        calc_dist_sq d.pos lp ≤ e.2 ∧
        Real.sqrt (calc_dist_sq d.pos lp : ℝ) ≤ Real.sqrt (e.2 : ℝ) ∧
        (e.2 = calc_dist_sq d.pos lp → o.ID ≤ oe.ID)) := by
  obtain ⟨e0, rest, rfl⟩ : ∃ e0 rest, cands = e0 :: rest := by
    cases cands with
    | nil => exact absurd rfl hne
    | cons e0 rest => exact ⟨e0, rest, rfl⟩
  obtain ⟨hge, hpw⟩ := candidatesAux_sorted s.tracked_objects 0 hc
  obtain ⟨e, hem, heq, hmin⟩ := argminGo_first rest e0 hpw
  obtain ⟨j, o, lp, hej, hjo, hdm, hlp, hk⟩ :=
    candidatesAux_mem s.tracked_objects 0 hc e hem
  have hjo' : s.tracked_objects[e.1]? = some o := by
    have hij : e.1 = j := by omega
    rw [hij]
    exact hjo
  have hak : argmin_key (e0 :: rest) = some e.1 := by
    simp only [argmin_key, Option.some_inj]
    exact heq
  have hmem : ((e.1, calc_dist_sq d.pos lp) : ℕ × ℤ) ∈ e0 :: rest := by
    have he : ((e.1, calc_dist_sq d.pos lp) : ℕ × ℤ) = e := by
      rw [← hk]
    rw [he]
    exact hem
  rcases process_detection_cases hp with
    ⟨cands', i', o', hc', ha', hi', rfl⟩ | ⟨cands', hc', ha', rfl⟩
  · have hcc : cands' = e0 :: rest := Option.some_inj.mp (hc'.symm.trans hc)
    subst hcc
    have hii : i' = e.1 := Option.some_inj.mp (ha'.symm.trans hak)
    subst hii
    have hoo : o = o' := Option.some_inj.mp (hjo'.symm.trans hi')
    subst hoo
    refine ⟨e.1, o, lp, hak, hjo', hdm, hlp, hmem, rfl, rfl, ?_, ?_⟩
    · intro j' oj hj' hdmj
      obtain ⟨lpj, hlpj, hm⟩ :=
        candidatesAux_complete s.tracked_objects 0 hc j' oj hj' hdmj
      exact ⟨lpj, hlpj, by simpa using hm⟩
    · intro e2 he2
      obtain ⟨j2, oe, lpe, hej2, hjo2, _, hlpe, hk2⟩ :=
        candidatesAux_mem s.tracked_objects 0 hc e2 he2
      have hjo2' : s.tracked_objects[e2.1]? = some oe := by
        have h21 : e2.1 = j2 := by omega
        rw [h21]
        exact hjo2
      obtain ⟨hle, htie⟩ := hmin e2 he2
      have hle' : calc_dist_sq d.pos lp ≤ e2.2 := hk ▸ hle
      refine ⟨oe, lpe, hjo2', hlpe, hk2, hle', ?_, ?_⟩
      · exact Real.sqrt_le_sqrt (by exact_mod_cast hle')
      · intro hteq
        have h12 : e.1 ≤ e2.1 := htie (hteq.trans hk.symm)
        exact pairwise_ID_le hsorted h12 hjo' hjo2'
  · have hcc : cands' = e0 :: rest := Option.some_inj.mp (hc'.symm.trans hc)
    subst hcc
    exact Option.noConfusion (ha'.symm.trans hak)

/-! ### Concrete instances used by counterexamples and witnesses

`Rect := Unit` with the constantly-true intersection oracle is a legitimate
geometry collaborator (the spec leaves the rectangle test external); the
configuration values are picked per theorem. -/

/-- A geometry collaborator whose rectangle-intersection test always
reports an intersection. -/
def exInter : Unit → Unit → Bool := fun _ _ => true

/-- A detection of area 100 centered at the origin. -/
def exDet : Det Unit := { pos := (0, 0), rect := (), area := 100 }

/-- A detection of area 0 (a degenerate contour reaching the engine). -/
def exDetZ : Det Unit := { pos := (0, 0), rect := (), area := 0 }

/-- A detection of area 100 centered at `(10, 0)`. -/
def exDetB : Det Unit := { pos := (10, 0), rect := (), area := 100 }

/-- A detection of area 100 centered at `(1, 0)`. -/
def exDet5 : Det Unit := { pos := (1, 0), rect := (), area := 100 }

/-- The object created from `exDet` by a fresh tracker. -/
def exObj : SingleObjectInfo Unit :=
  { ID := 0, prev_det := exDet, position_list := [(0, 0)],
    last_actual_update := 0, num_actual_updates := 1 }

/-- The store after one frame `[exDet]` from a fresh tracker. -/
def exS1 : TEObjectTracker Unit :=
  { total_seen_objects := 1, tracked_objects := [exObj] }

/-- `exObj` after one aging pass. -/
def exObjAged : SingleObjectInfo Unit :=
  { ID := 0, prev_det := exDet, position_list := [(0, 0)],
    last_actual_update := 1, num_actual_updates := 1 }

/-- `exObj` after aging and a second real match on `exDet`. -/
def exObjSeen2 : SingleObjectInfo Unit :=
  { ID := 0, prev_det := exDet, position_list := [(0, 0), (0, 0)],
    last_actual_update := 0, num_actual_updates := 2 }

/-- The phase-2 result of feeding `[exDet]` to `exS1` again. -/
def exS2 : TEObjectTracker Unit :=
  { total_seen_objects := 1, tracked_objects := [exObjSeen2] }

/-- `exObj` after aging and a synthetic (no-detection) update. -/
def exObjSynth : SingleObjectInfo Unit :=
  { ID := 0, prev_det := exDet, position_list := [(0, 0), (0, 0)],
    last_actual_update := 1, num_actual_updates := 1 }

/-- The store after an empty frame applied to `exS1`. -/
def exS3 : TEObjectTracker Unit :=
  { total_seen_objects := 1, tracked_objects := [exObjSynth] }

/-- A stored object whose recorded area is zero. -/
def exObjZ : SingleObjectInfo Unit :=
  { ID := 0, prev_det := exDetZ, position_list := [(0, 0)],
    last_actual_update := 0, num_actual_updates := 1 }

/-- A store holding only the zero-area object. -/
def exSZ : TEObjectTracker Unit :=
  { total_seen_objects := 1, tracked_objects := [exObjZ] }

/-- A second tracked object at `(10, 0)`. -/
def exObjB : SingleObjectInfo Unit :=
  { ID := 1, prev_det := exDetB, position_list := [(10, 0)],
    last_actual_update := 0, num_actual_updates := 1 }

/-- A two-object store with ids in creation order. -/
def exS5 : TEObjectTracker Unit :=
  { total_seen_objects := 2, tracked_objects := [exObj, exObjB] }

/-- `exObj` really updated by `exDet5`. -/
def exObj5 : SingleObjectInfo Unit :=
  { ID := 0, prev_det := exDet5, position_list := [(0, 0), (1, 0)],
    last_actual_update := 0, num_actual_updates := 2 }

/-- `exS5` after `exDet5` matched its nearest object `exObj`. -/
def exS5b : TEObjectTracker Unit :=
  { total_seen_objects := 2, tracked_objects := [exObj5, exObjB] }

/-- C1 counterexample run.  Starting from a fresh tracker, one frame with the
single detection `exDet` creates object 0 with one real update; the next
frame supplies two detections at the same spot, and BOTH are matched to
object 0 (phase 2 never excludes an already-matched object), so its
`num_actual_updates` rises from 1 to 3 — an increase of 2 within one frame,
refuting "increases by at most 1 during that frame". -/
theorem C1_counterexample :
    (track_objects_from_contours 5 3 exInter 1 (initState Unit) [exDet]).map
        (fun s => s.tracked_objects.map (fun o => (o.ID, o.num_actual_updates))) =
      some [(0, 1)] ∧
    ((track_objects_from_contours 5 3 exInter 1 (initState Unit) [exDet]).bind
          (fun s => track_objects_from_contours 5 3 exInter 1 s [exDet, exDet])).map
        (fun s => s.tracked_objects.map (fun o => (o.ID, o.num_actual_updates))) =
      some [(0, 3)] := by
  constructor <;>
    simp [track_objects_from_contours, phase1, phase2, phase3, phase4,
      process_detection, candidatesAux, detection_matches,
      check_area_size_similarity, argmin_key, argminGo, update_movement,
      dequeAppend, initState, exDet, exInter, calc_dist_sq]

/-- C2 counterexample run.  A zero-area detection reaching the engine while
the store is empty creates a tracked object whose recorded area is 0 (the
engine never validates areas).  On the next frame the candidate scan for
`exDet` reaches `check_area_size_similarity(100, 0)`, whose unguarded
division `area1 / area2` raises `ZeroDivisionError` (modelled `none`):
the zero-area object is NOT quietly excluded, the whole frame step faults,
refuting the claimed guard. -/
theorem C2_counterexample :
    check_area_size_similarity 1 100 0 = none ∧
    (track_objects_from_contours 5 3 exInter 1 (initState Unit) [exDetZ]).bind
        (fun s => track_objects_from_contours 5 3 exInter 1 s [exDet]) =
      none := by
  constructor <;>
    simp [track_objects_from_contours, phase1, phase2, phase3, phase4,
      process_detection, candidatesAux, detection_matches,
      check_area_size_similarity, argmin_key, argminGo, update_movement,
      dequeAppend, initState, exDet, exDetZ, exInter, calc_dist_sq]

/-- C3 counterexample run.  One frame assigns id 0; `flush_objects` resets
`total_seen_objects` to 0 (`object_tracking.py:190`), so the first object
created after the reset receives id 0 AGAIN — the same process-lifetime id
is assigned to two different objects once a reset occurs, refuting
"an id once assigned is never assigned again" over sequences that include
the reset operation. -/
theorem C3_counterexample :
    (track_objects_from_contours 5 3 exInter 1 (initState Unit) [exDet]).map
        (fun s => s.tracked_objects.map (fun o => o.ID)) = some [0] ∧
    ((track_objects_from_contours 5 3 exInter 1 (initState Unit) [exDet]).map
          flush_objects).bind
        (fun s => (track_objects_from_contours 5 3 exInter 1 s [exDet]).map
          (fun s' => s'.tracked_objects.map (fun o => o.ID))) =
      some [0] := by
  constructor <;>
    simp [track_objects_from_contours, phase1, phase2, phase3, phase4,
      process_detection, candidatesAux, detection_matches,
      check_area_size_similarity, argmin_key, argminGo, update_movement,
      dequeAppend, initState, flush_objects, exDet, exInter, calc_dist_sq]

/-- C4 counterexample run, with eviction threshold `R = 1`.  Object 0 is
created in frame 1 with `last_actual_update = 0`.  In frame 2, after the
aging phase its `last_actual_update` equals `R` (second conjunct), yet a
detection matches it in phase 2, resetting the counter to 0, and the object
survives eviction: it is still in the store at the end of the frame (third
conjunct), refuting "absent from the store by the end of that frame". -/
theorem C4_counterexample :
    (track_objects_from_contours 5 1 exInter 1 (initState Unit) [exDet]).map
        (fun s => s.tracked_objects.map (fun o => (o.ID, o.last_actual_update))) =
      some [(0, 0)] ∧
    (track_objects_from_contours 5 1 exInter 1 (initState Unit) [exDet]).map
        (fun s => (phase1 s).tracked_objects.map (fun o => o.last_actual_update)) =
      some [1] ∧
    ((track_objects_from_contours 5 1 exInter 1 (initState Unit) [exDet]).bind
          (fun s => track_objects_from_contours 5 1 exInter 1 s [exDet])).map
        (fun s => s.tracked_objects.map (fun o => (o.ID, o.last_actual_update))) =
      some [(0, 0)] := by
  refine ⟨?_, ?_, ?_⟩ <;>
    simp [track_objects_from_contours, phase1, phase2, phase3, phase4,
      process_detection, candidatesAux, detection_matches,
      check_area_size_similarity, argmin_key, argminGo, update_movement,
      dequeAppend, initState, exDet, exInter, calc_dist_sq]

/-! ### Witnesses: the hypotheses of each claim theorem hold on concrete
runs of the embedded tracker -/

/-- Witness for C1 (amended): a second frame `[exDet]` on the one-object
store `exS1`. -/
theorem C1_amended_witness :
    ∃ o2, exS2.tracked_objects[0]? = some o2 ∧
      exObj.num_actual_updates ≤ o2.num_actual_updates ∧
      o2.num_actual_updates ≤
        exObj.num_actual_updates + ([exDet] : List (Det Unit)).length ∧
      ∀ o' ∈ exS2.tracked_objects, ∃ o3 ∈ exS2.tracked_objects,
        o'.num_actual_updates = o3.num_actual_updates :=
  C1_amended 5 3 exInter 1 exS1 exS2 exS2 [exDet] 0 exObj
    (by simp [track_objects_from_contours, phase1, phase2, phase3, phase4,
      process_detection, candidatesAux, detection_matches,
      check_area_size_similarity, argmin_key, argminGo, update_movement,
      dequeAppend, exDet, exInter, calc_dist_sq, exObj, exS1, exObjSeen2,
      exS2])
    (by simp [phase1, phase2, process_detection, candidatesAux,
      detection_matches, check_area_size_similarity, argmin_key, argminGo,
      update_movement, dequeAppend, exDet, exInter, calc_dist_sq, exObj,
      exS1, exObjSeen2, exS2])
    rfl

/-- Witness for C2 (amended): the store `exSZ` holds a zero-area object and
the always-true intersection oracle applies. -/
theorem C2_amended_witness :
    (∀ a1 : ℚ, check_area_size_similarity 1 a1 0 = none) ∧
    track_objects_from_contours 5 3 exInter 1 exSZ [exDet] = none :=
  C2_amended 5 3 exInter 1 exSZ exDet []
    ⟨exObjZ, by simp [exSZ], rfl⟩ (fun o _ => rfl)

/-- Witness for C3 (amended): an empty frame on `exS1`, whose single object
has id 0 under counter 1. -/
theorem C3_amended_witness :
    IdInv exS3 ∧
    exS1.total_seen_objects ≤ exS3.total_seen_objects ∧
    (∀ o' ∈ exS3.tracked_objects,
      (∃ o ∈ exS1.tracked_objects, o'.ID = o.ID) ∨
        exS1.total_seen_objects ≤ o'.ID) ∧
    IdInv (initState Unit) ∧ IdInv (flush_objects exS1) ∧
    (flush_objects exS1).total_seen_objects = 0 :=
  C3_amended 5 3 exInter 1 exS1 exS3 []
    ⟨by simp [exS1, exObj], by simp [exS1, exObj]⟩
    (by simp [track_objects_from_contours, phase1, phase2, phase3, phase4,
      process_detection, update_movement, dequeAppend, exDet, exInter,
      exObj, exS1, exObjSynth, exS3])

/-- Witness for C4 (amended): with `R = 1`, after an empty frame's aging
phase the object `exObjAged` sits at the eviction threshold and is indeed
gone from the final store. -/
theorem C4_amended_witness :
    track_objects_from_contours 5 1 exInter 1 exS1 [] =
      some (phase4 5 (phase3 1 (phase1 exS1))) ∧
    exObjAged ∉ (phase4 5 (phase3 1 (phase1 exS1))).tracked_objects ∧
    ∀ o' ∈ (phase4 5 (phase3 1 (phase1 exS1))).tracked_objects,
      o'.last_actual_update < 1 :=
  C4_amended 5 1 exInter 1 exS1 (phase1 exS1) [] exObjAged rfl
    (by simp [phase1, exS1, exObj, exObjAged]) (by decide)

/-- Witness for C5: the detection `exDet5` at `(1, 0)` over the two-object
store `exS5`, with candidates at squared distances 1 and 81. -/
theorem C5_witness :
    ∃ i o lp, argmin_key [(0, 1), (1, 81)] = some i ∧
      exS5.tracked_objects[i]? = some o ∧
      detection_matches exInter 1 exDet5 o = some true ∧
      o.position_list.getLast? = some lp ∧
      (i, calc_dist_sq exDet5.pos lp) ∈ ([(0, 1), (1, 81)] : List (ℕ × ℤ)) ∧
      exS5b.tracked_objects =
        exS5.tracked_objects.set i (update_movement 5 o exDet5 true) ∧
      exS5b.total_seen_objects = exS5.total_seen_objects ∧
      (∀ (j : ℕ) (oj : SingleObjectInfo Unit),
        exS5.tracked_objects[j]? = some oj →
        detection_matches exInter 1 exDet5 oj = some true →
        ∃ lpj, oj.position_list.getLast? = some lpj ∧
          (j, calc_dist_sq exDet5.pos lpj) ∈
            ([(0, 1), (1, 81)] : List (ℕ × ℤ))) ∧
      (∀ e ∈ ([(0, 1), (1, 81)] : List (ℕ × ℤ)),
        ∃ oe lpe, exS5.tracked_objects[e.1]? = some oe ∧
        oe.position_list.getLast? = some lpe ∧
        e.2 = calc_dist_sq exDet5.pos lpe ∧
        calc_dist_sq exDet5.pos lp ≤ e.2 ∧
        Real.sqrt (calc_dist_sq exDet5.pos lp : ℝ) ≤ Real.sqrt (e.2 : ℝ) ∧
        (e.2 = calc_dist_sq exDet5.pos lp → o.ID ≤ oe.ID)) :=
  C5_nearest_selection 5 exInter 1 exS5 exS5b exDet5 [(0, 1), (1, 81)]
    (by decide)
    (by simp [candidatesAux, detection_matches, check_area_size_similarity,
      exDet, exDetB, exDet5, exInter, calc_dist_sq, exObj, exObjB, exS5])
    (by simp)
    (by simp [process_detection, candidatesAux, detection_matches,
      check_area_size_similarity, argmin_key, argminGo, update_movement,
      dequeAppend, exDet, exDetB, exDet5, exInter, calc_dist_sq, exObj,
      exObjB, exS5, exObj5, exS5b])

/-- Witness for C6: the second frame `[exDet]` on `exS1`: the stored object
is matched, so its counter ends at 0 with one more confirmation. -/
theorem C6_witness :
    ∃ o2, exS2.tracked_objects[0]? = some o2 ∧
      (o2.last_actual_update = 0 ↔
        exObj.num_actual_updates < o2.num_actual_updates) ∧
      (o2.num_actual_updates = exObj.num_actual_updates →
        o2.last_actual_update = exObj.last_actual_update + 1) ∧
      (o2.last_actual_update < 3 →
        ∃ o' ∈ exS2.tracked_objects,
          o'.last_actual_update = o2.last_actual_update ∧
          o'.num_actual_updates = o2.num_actual_updates) :=
  C6_miss_counter 5 3 exInter 1 exS1 exS2 exS2 [exDet] 0 exObj
    (by simp [track_objects_from_contours, phase1, phase2, phase3, phase4,
      process_detection, candidatesAux, detection_matches,
      check_area_size_similarity, argmin_key, argminGo, update_movement,
      dequeAppend, exDet, exInter, calc_dist_sq, exObj, exS1, exObjSeen2,
      exS2])
    (by simp [phase1, phase2, process_detection, candidatesAux,
      detection_matches, check_area_size_similarity, argmin_key, argminGo,
      update_movement, dequeAppend, exDet, exInter, calc_dist_sq, exObj,
      exS1, exObjSeen2, exS2])
    rfl

/-- Witness for C7: an empty frame on `exS1`: its unmatched object receives
the synthetic update. -/
theorem C7_witness :
    track_objects_from_contours 5 3 exInter 1 exS1 [] =
      some (phase4 5 (phase3 3 (phase1 exS1))) ∧
    ∀ o3 ∈ (phase3 3 (phase1 exS1)).tracked_objects,
      o3.last_actual_update ≠ 0 →
      o3.position_list.getLast? = some o3.prev_det.pos ∧
      update_movement 5 o3 o3.prev_det false ∈
        (phase4 5 (phase3 3 (phase1 exS1))).tracked_objects ∧
      (update_movement 5 o3 o3.prev_det false).position_list =
        dequeAppend 5 o3.position_list o3.prev_det.pos ∧
      (update_movement 5 o3 o3.prev_det false).position_list.length ≤ 5 ∧
      (update_movement 5 o3 o3.prev_det false).last_actual_update =
        o3.last_actual_update ∧
      (update_movement 5 o3 o3.prev_det false).num_actual_updates =
        o3.num_actual_updates :=
  C7_synthetic_update 5 3 exInter 1 exS1 (phase1 exS1) [] (by decide)
    (by simp [LastPos, exS1, exObj, exDet]) rfl

/-- Witness for C8: the reachable state `exS1` (one frame from a fresh
tracker) with window 5. -/
theorem C8_witness :
    (∀ o ∈ exS1.tracked_objects, o.position_list.length ≤ 5) ∧
    (∀ o ∈ (phase1 exS1).tracked_objects, o.position_list.length ≤ 5) ∧
    (∀ (ds : List (Det Unit)) (s2 : TEObjectTracker Unit),
      phase2 5 exInter 1 (phase1 exS1) ds = some s2 →
      (∀ o ∈ s2.tracked_objects, o.position_list.length ≤ 5) ∧
      (∀ o ∈ (phase3 3 s2).tracked_objects, o.position_list.length ≤ 5) ∧
      (∀ o ∈ (phase4 5 (phase3 3 s2)).tracked_objects,
        o.position_list.length ≤ 5)) ∧
    (∀ (l : List (ℤ × ℤ)) (x : ℤ × ℤ), 0 < 5 → l.length = 5 →
      dequeAppend 5 l x = l.tail ++ [x]) :=
  C8_history_bound
    (Reachable.step (Reachable.init)
      (show track_objects_from_contours 5 3 exInter 1 (initState Unit)
          [exDet] = some exS1 by
        simp [track_objects_from_contours, phase1, phase2, phase3, phase4,
          process_detection, candidatesAux, detection_matches,
          check_area_size_similarity, argmin_key, argminGo, update_movement,
          dequeAppend, initState, exDet, exInter, calc_dist_sq, exObj, exS1]))

/-- Witness for C10: the reachable state `exS1` with window 5, instantiated
at its stored object `exObj`. -/
theorem C10_witness :
    exObj ∈ exS1.tracked_objects ∧ exObj.position_list ≠ [] ∧
      exObj.position_list.getLast? = some exObj.prev_det.pos :=
  ⟨by simp [exS1],
    C10_history_nonempty (by decide)
      (Reachable.step (Reachable.init)
        (show track_objects_from_contours 5 3 exInter 1 (initState Unit)
            [exDet] = some exS1 by
          simp [track_objects_from_contours, phase1, phase2, phase3, phase4,
            process_detection, candidatesAux, detection_matches,
            check_area_size_similarity, argmin_key, argminGo, update_movement,
            dequeAppend, initState, exDet, exInter, calc_dist_sq, exObj,
            exS1]))
      exObj (by simp [exS1])⟩

end TritonEye
